import Mathlib

/-
Verification of the tokenizer / argument-validation / dispatch engine of the
reedline-repl-rs crate (src/src/repl.rs).  The Rust code is shallowly embedded:
HashMaps become association lists with replace-on-insert semantics, the regex
tokenizer of process_line is transcribed as a character-level scanner with the
regex crate's leftmost-first match semantics, handler callbacks become Lean
functions, and panics (the .unwrap() calls in run and process_line) become an
explicit outcome constructor.
-/

namespace ReplRs

/-- Wrapper around a raw string token (the crate Value type, built via Value::new
in repl.rs lines 148 and 157; equality operates on the underlying string). -/
structure Value where
  val : String
  deriving DecidableEq, Repr

/-- Mirrors Value::new. -/
def Value.new (s : String) : Value := ⟨s⟩

/-- Error taxonomy of the crate (crate::error::Error).  The three runtime
variants are constructed in repl.rs (lines 142, 150, 178); the two
construction-time variants appear in its tests and in the spec error taxonomy. -/
inductive Error where
  | tooManyArguments (cmd : String) (maxAllowed : Nat)
  | missingRequiredArgument (cmd : String) (param : String)
  | unknownCommand (cmd : String)
  | illegalDefaultError (param : String)
  | illegalRequiredError (param : String)
  deriving DecidableEq, Repr

/-- One positional parameter slot (crate Parameter; the fields name, required
and default are the ones read by validate_arguments in repl.rs). -/
structure Parameter where
  name : String
  required : Bool
  default : Option String
  deriving DecidableEq, Repr

/-- HashMap::insert modelled on an association list: replace the value stored
under an existing key in place, otherwise append the new binding. -/
def insertAssoc {α : Type} : List (String × α) → String → α → List (String × α)
  | [], key, val => [(key, val)]
  | (k, v) :: rest, key, val =>
    if k = key then (key, val) :: rest
    else (k, v) :: insertAssoc rest key val

/-- HashMap::get modelled on an association list. -/
def lookupAssoc {α : Type} : List (String × α) → String → Option α
  | [], _ => none
  | (k, v) :: rest, key => if k = key then some v else lookupAssoc rest key

/-- Loop body of Repl::validate_arguments (repl.rs lines 145-160): walk the
parameters in declared order with their enumerate index, binding the token at
the same index when present, stopping at the first missing required parameter,
and binding declared defaults for absent optional parameters. -/
def validateFrom (cmd : String) (args : List String) :
    List Parameter → Nat → List (String × Value) → Except Error (List (String × Value))
  | [], _, validated => Except.ok validated
  | p :: rest, index, validated =>
    if h : index < args.length then
      validateFrom cmd args rest (index + 1)
        (insertAssoc validated p.name (Value.new (args.get ⟨index, h⟩)))
    else if p.required then
      Except.error (Error.missingRequiredArgument cmd p.name)
    else
      match p.default with
      | some d => validateFrom cmd args rest (index + 1) (insertAssoc validated p.name (Value.new d))
      | none => validateFrom cmd args rest (index + 1) validated

/-- Repl::validate_arguments (repl.rs lines 135-162). -/
def validate_arguments (cmd : String) (parameters : List Parameter) (args : List String) :
    Except Error (List (String × Value)) :=
  if args.length > parameters.length then
    Except.error (Error.tooManyArguments cmd parameters.length)
  else
    validateFrom cmd args parameters 0 []

/-- The double-quote character. -/
def qc : Char := Char.ofNat 34

/-- The newline character. -/
def nlc : Char := Char.ofNat 10

/-- Scan for the closing quote of the first regex alternative (the quoted span
of the pattern in repl.rs line 211): succeeds with the span content and the
remainder when a closing double quote occurs before any newline; the content
may not contain a quote or newline. -/
def splitAtQuote : List Char → Option (List Char × List Char)
  | [] => none
  | c :: rest =>
    if c = qc then some ([], rest)
    else if c = nlc then none
    else
      match splitAtQuote rest with
      | some (content, r) => some (c :: content, r)
      | none => none

/-- Greedy match of the second regex alternative: the maximal run of
non-whitespace characters, returned with the rest of the input. -/
def takeNonWs : List Char → List Char × List Char
  | [] => ([], [])
  | c :: rest =>
    if c.isWhitespace then ([], c :: rest)
    else
      let (t, r) := takeNonWs rest
      (c :: t, r)

/-- Successive non-overlapping matches of the tokenizing regex of repl.rs line
211 under the regex crate's leftmost-first semantics: skip to the next
non-whitespace character; there, prefer the quoted alternative (which requires
an opening quote, a nonempty quote-free newline-free content, and a closing
quote) and otherwise fall back to the maximal non-whitespace run.  The fuel
argument (always instantiated with the input length, which every step strictly
decreases) makes the scan structurally total. -/
def scanTokens : Nat → List Char → List (List Char)
  | 0, _ => []
  | _, [] => []
  | fuel + 1, c :: rest =>
    if c.isWhitespace then scanTokens fuel rest
    else if c = qc then
      match splitAtQuote rest with
      | some (content, r) =>
        if content.isEmpty then
          let (t, r2) := takeNonWs (c :: rest)
          t :: scanTokens fuel r2
        else (qc :: content ++ [qc]) :: scanTokens fuel r
      | none =>
        let (t, r2) := takeNonWs (c :: rest)
        t :: scanTokens fuel r2
    else
      let (t, r2) := takeNonWs (c :: rest)
      t :: scanTokens fuel r2

/-- Raw regex matches of the tokenizer, before quote removal. -/
def rawTokens (l : List Char) : List (List Char) := scanTokens l.length l

/-- Token list of repl.rs lines 211-215: each raw match is passed through
String::replace removing every double-quote character. -/
def tokenizeChars (l : List Char) : List (List Char) :=
  (rawTokens l).map (List.filter (fun c => c != qc))

/-- Tokenization of one line, as a function on String. -/
def tokenizeLine (line : String) : List String :=
  (tokenizeChars line.data).map String.mk

/-- str::trim of the input line (repl.rs line 209): drop leading and trailing
whitespace characters. -/
def trimChars (l : List Char) : List Char :=
  ((l.dropWhile Char.isWhitespace).reverse.dropWhile Char.isWhitespace).reverse

/-- One registered command (crate Command: the fields name, parameters,
callback and help_summary are the ones read in repl.rs).  The callback takes
the bound-argument mapping and the context and returns an optional display
string together with the updated context, or a domain error. -/
structure Command (Ctx E : Type) where
  name : String
  parameters : List Parameter
  callback : List (String × Value) → Ctx → Except E (Option String × Ctx)
  help_summary : Option String

/-- One entry of the help snapshot (crate::help::HelpEntry as consumed by
repl.rs: built from a command name, parameter list and help summary, with its
command field inspected by show_help). -/
structure HelpEntry where
  command : String
  parameters : List Parameter
  summary : Option String
  deriving DecidableEq, Repr

/-- The help snapshot (crate::help::HelpContext as built in repl.rs lines
239-244). -/
structure HelpContext where
  name : String
  version : String
  description : String
  help_entries : List HelpEntry
  deriving DecidableEq, Repr

/-- The Repl session value (repl.rs lines 27-40).  The registry is the
HashMap of commands; helpGeneral and helpCommand model the two methods of the
boxed HelpViewer (their Result of unit together with the lines they print);
errorHandler models the stored ErrorHandler function pointer (its read-only
Repl argument is dropped: no modelled handler inspects it); liftError models
the From conversion of crate errors into the host error type E.  Terminal
presentation fields (prompt, highlighter, completer, history) are external
collaborators and carry no dispatch behavior. -/
structure Repl (Ctx E : Type) where
  name : String
  banner : Option String
  version : String
  description : String
  commands : List (String × Command Ctx E)
  context : Ctx
  help_context : Option HelpContext
  helpGeneral : HelpContext → Except Error (List String)
  helpCommand : HelpEntry → Except Error (List String)
  errorHandler : E → List String × Except Error Unit
  liftError : Error → E

/-- The default error handler (repl.rs lines 21-24): print the displayed error
to stderr and return Ok.  The display argument models the Display bound on E. -/
def default_error_handler {E : Type} (display : E → String) (error : E) :
    List String × Except Error Unit :=
  ([display error], Except.ok ())

/-- Repl::add_command (repl.rs lines 129-133): insert the command into the
registry keyed by its own name. -/
def add_command {Ctx E : Type} (repl : Repl Ctx E) (command : Command Ctx E) : Repl Ctx E :=
  { repl with commands := insertAssoc repl.commands command.name command }

/-- Result of Repl::show_help: the printed lines on success (including the
not-found notice printed to stderr), a crate error from the viewer, or the
panic of the unwrap on a missing help context. -/
inductive ShowHelpRes where
  | ok (output : List String)
  | err (e : Error)
  | panicked
  deriving DecidableEq, Repr

/-- The reserved built-in command name. -/
def helpLiteral : String := "help"

/-- Prefix of the not-found notice printed by show_help (repl.rs line 202). -/
def helpNotFoundPrefix : String := "Help not found for command "

/-- Repl::show_help (repl.rs lines 186-206): unwrap the help context (a panic
when absent), route no arguments to the general help view, and otherwise look
the first argument up among the help entries, delegating to the per-command
view or printing a not-found notice. -/
def show_help {Ctx E : Type} (repl : Repl Ctx E) (args : List String) : ShowHelpRes :=
  match repl.help_context with
  | none => ShowHelpRes.panicked
  | some hc =>
    match args with
    | [] =>
      match repl.helpGeneral hc with
      | Except.ok out => ShowHelpRes.ok out
      | Except.error e => ShowHelpRes.err e
    | a0 :: _ =>
      match hc.help_entries.find? (fun entry => entry.command == a0) with
      | some entry =>
        match repl.helpCommand entry with
        | Except.ok out => ShowHelpRes.ok out
        | Except.error e => ShowHelpRes.err e
      | none => ShowHelpRes.ok [helpNotFoundPrefix ++ a0]

/-- Result of one dispatch: the updated context with the printed lines, a host
error (as returned to the run loop), or a panic. -/
inductive HandleResult (Ctx E : Type) where
  | ok (ctx : Ctx) (output : List String)
  | err (e : E)
  | panicked
  deriving Repr

/-- Repl::handle_command (repl.rs lines 164-184): registry lookup first; on a
hit validate the arguments and invoke the callback, printing its optional
result; on a miss route the reserved help literal to show_help and fail with
UnknownCommand otherwise.  Crate errors cross into E via the From conversion. -/
def handle_command {Ctx E : Type} (repl : Repl Ctx E) (command : String) (args : List String) :
    HandleResult Ctx E :=
  match lookupAssoc repl.commands command with
  | some definition =>
    match validate_arguments command definition.parameters args with
    | Except.error e => HandleResult.err (repl.liftError e)
    | Except.ok validated =>
      match definition.callback validated repl.context with
      | Except.ok (some value, ctx) => HandleResult.ok ctx [value]
      | Except.ok (none, ctx) => HandleResult.ok ctx []
      | Except.error error => HandleResult.err error
  | none =>
    if command = helpLiteral then
      match show_help repl args with
      | ShowHelpRes.ok out => HandleResult.ok repl.context out
      | ShowHelpRes.err e => HandleResult.err (repl.liftError e)
      | ShowHelpRes.panicked => HandleResult.panicked
    else HandleResult.err (repl.liftError (Error.unknownCommand command))

/-- Repl::process_line (repl.rs lines 208-224): trim the line; an empty
trimmed line is a silent no-op; otherwise tokenize it, take the first token as
the command name and hand the rest to handle_command.  An empty token list
with a nonempty trimmed line cannot arise; on it the Rust drain call would
panic, which the embedding records faithfully. -/
def process_line {Ctx E : Type} (repl : Repl Ctx E) (line : String) : HandleResult Ctx E :=
  let trimmed := trimChars line.data
  if trimmed.isEmpty then HandleResult.ok repl.context []
  else
    match tokenizeChars trimmed with
    | [] => HandleResult.panicked
    | command :: args => handle_command repl (String.mk command) (args.map String.mk)

/-- Repl::construct_help_context (repl.rs lines 226-245): one HelpEntry per
registered command, sorted by command name.  Rust Vec::sort_by_key is a stable
sort by the key, modelled by insertion sort on the name order; stability makes
the modelled output the unique stable sort of the iterated entries. -/
def entryLe (a b : HelpEntry) : Prop := a.command ≤ b.command

instance : DecidableRel entryLe :=
  fun a b => inferInstanceAs (Decidable (a.command ≤ b.command))

instance : IsTotal HelpEntry entryLe :=
  ⟨fun a b => le_total a.command b.command⟩

instance : IsTrans HelpEntry entryLe :=
  ⟨fun _ _ _ hab hbc => le_trans hab hbc⟩

/-- The help snapshot built by construct_help_context; run stores it into
help_context before entering the read loop (repl.rs line 249). -/
def construct_help_context {Ctx E : Type} (repl : Repl Ctx E) : HelpContext :=
  let help_entries :=
    repl.commands.map (fun kc => HelpEntry.mk kc.2.name kc.2.parameters kc.2.help_summary)
  { name := repl.name
    version := repl.version
    description := repl.description
    help_entries := List.insertionSort entryLe help_entries }

/-- One signal yielded by the reedline line editor inside the run loop. -/
inductive Signal where
  | success (line : String)
  | ctrlC
  | ctrlD
  deriving DecidableEq, Repr

/-- Observable outcome of one iteration of the run loop. -/
inductive StepResult (Ctx : Type) where
  | nextLine (ctx : Ctx) (output : List String)
  | quit (output : List String)
  | panicked
  deriving Repr

/-- The message printed when the loop quits (repl.rs line 293). -/
def quittingMsg : String := "quitting..."

/-- One iteration of the run loop (repl.rs lines 286-297): a successful line is
passed to process_line and the Result is unwrapped, so an Err from dispatch is
a panic that aborts the process; Ctrl-C and Ctrl-D print the quitting message
and break the loop.  The stored errorHandler is not consulted anywhere. -/
def runStep {Ctx E : Type} (repl : Repl Ctx E) (sig : Signal) : StepResult Ctx :=
  match sig with
  | Signal.success line =>
    match process_line repl line with
    | HandleResult.ok ctx out => StepResult.nextLine ctx out
    | HandleResult.err _ => StepResult.panicked
    | HandleResult.panicked => StepResult.panicked
  | Signal.ctrlC => StepResult.quit [quittingMsg]
  | Signal.ctrlD => StepResult.quit [quittingMsg]

/-- Looking up the key just inserted yields the inserted value. -/
theorem lookupAssoc_insertAssoc_self {α : Type} (m : List (String × α)) (key : String) (val : α) :
    lookupAssoc (insertAssoc m key val) key = some val := by
  induction m with
  | nil => simp [insertAssoc, lookupAssoc]
  | cons kv rest ih =>
    obtain ⟨k, v⟩ := kv
    by_cases h : k = key
    · simp [insertAssoc, h, lookupAssoc]
    · simp [insertAssoc, h, lookupAssoc, ih]

/-- Insertion leaves lookups at other keys unchanged. -/
theorem lookupAssoc_insertAssoc_ne {α : Type} (m : List (String × α)) (key k : String) (val : α)
    (h : k ≠ key) : lookupAssoc (insertAssoc m key val) k = lookupAssoc m k := by
  induction m with
  | nil => simp [insertAssoc, lookupAssoc, Ne.symm h]
  | cons kv rest ih =>
    obtain ⟨k0, v0⟩ := kv
    by_cases h0 : k0 = key
    · subst h0
      simp [insertAssoc, lookupAssoc, Ne.symm h]
    · simp [insertAssoc, h0, lookupAssoc, ih]

/-- A binding of the inserted map is an old binding or carries the new key. -/
theorem mem_insertAssoc {α : Type} (m : List (String × α)) (key : String) (val : α)
    (k : String) (v : α) (h : (k, v) ∈ insertAssoc m key val) : (k, v) ∈ m ∨ k = key := by
  induction m with
  | nil =>
    simp [insertAssoc] at h
    exact Or.inr h.1
  | cons kv rest ih =>
    obtain ⟨k0, v0⟩ := kv
    by_cases h0 : k0 = key
    · simp [insertAssoc, h0] at h
      rcases h with h | h
      · exact Or.inr h.1
      · exact Or.inl (List.mem_cons_of_mem _ h)
    · simp [insertAssoc, h0] at h
      rcases h with h | h
      · exact Or.inl (by simp [h])
      · rcases ih h with h2 | h2
        · exact Or.inl (List.mem_cons_of_mem _ h2)
        · exact Or.inr h2

/-- Key membership after insertion: every key of the inserted map is an old
key or the inserted one. -/
theorem mem_keys_insertAssoc {α : Type} (m : List (String × α)) (key : String) (val : α)
    (a : String) (h : a ∈ (insertAssoc m key val).map Prod.fst) :
    a ∈ m.map Prod.fst ∨ a = key := by
  rcases List.mem_map.mp h with ⟨kv, hkv, hfst⟩
  obtain ⟨k, v⟩ := kv
  rcases mem_insertAssoc m key val k v hkv with h2 | h2
  · exact Or.inl (List.mem_map.mpr ⟨(k, v), h2, hfst⟩)
  · exact Or.inr (hfst ▸ h2)

/-- Insertion preserves the at-most-one-binding-per-key invariant of the
modelled HashMap. -/
theorem nodup_keys_insertAssoc {α : Type} (m : List (String × α)) (key : String) (val : α)
    (h : (m.map Prod.fst).Nodup) : ((insertAssoc m key val).map Prod.fst).Nodup := by
  induction m with
  | nil => simp [insertAssoc]
  | cons kv rest ih =>
    obtain ⟨k0, v0⟩ := kv
    simp only [List.map_cons, List.nodup_cons] at h
    by_cases h0 : k0 = key
    · subst h0
      simp only [insertAssoc, if_true, List.map_cons, List.nodup_cons]
      exact h
    · simp only [insertAssoc, if_neg h0, List.map_cons, List.nodup_cons]
      refine ⟨fun hmem => ?_, ih h.2⟩
      rcases mem_keys_insertAssoc rest key val k0 hmem with h2 | h2
      · exact h.1 h2
      · exact h0 h2

/-- The validation loop never produces a TooManyArguments error: that variant
arises only from the length check preceding the loop. -/
theorem validateFrom_ne_tooMany (cmd : String) (args : List String) :
    ∀ (params : List Parameter) (index : Nat) (acc : List (String × Value))
      (name : String) (n : Nat),
      validateFrom cmd args params index acc ≠ Except.error (Error.tooManyArguments name n) := by
  intro params
  induction params with
  | nil =>
    intro index acc name n
    simp [validateFrom]
  | cons p rest ih =>
    intro index acc name n
    simp only [validateFrom]
    by_cases h : index < args.length
    · rw [dif_pos h]
      apply ih
    · rw [dif_neg h]
      by_cases hr : p.required = true
      · simp [hr]
      · rw [if_neg hr]
        cases hd : p.default with
        | some d => apply ih
        | none => apply ih

/-- Frame property of the validation loop: a successful run only touches keys
among the remaining parameter names. -/
theorem validateFrom_frame (cmd : String) (args : List String) :
    ∀ (params : List Parameter) (index : Nat) (acc m : List (String × Value)),
      validateFrom cmd args params index acc = Except.ok m →
      ∀ k, k ∉ params.map Parameter.name → lookupAssoc m k = lookupAssoc acc k := by
  intro params
  induction params with
  | nil =>
    intro index acc m h k _
    simp [validateFrom] at h
    rw [h]
  | cons p rest ih =>
    intro index acc m h k hk
    have hk1 : k ≠ p.name := by
      intro e
      exact hk (by simp [e])
    have hk2 : k ∉ rest.map Parameter.name := by
      intro e
      exact hk (by simp [e])
    simp only [validateFrom] at h
    by_cases hidx : index < args.length
    · rw [dif_pos hidx] at h
      rw [ih _ _ _ h k hk2, lookupAssoc_insertAssoc_ne _ _ _ _ hk1]
    · rw [dif_neg hidx] at h
      by_cases hr : p.required = true
      · rw [if_pos hr] at h
        exact absurd h (by simp)
      · rw [if_neg hr] at h
        cases hd : p.default with
        | some d =>
          rw [hd] at h
          rw [ih _ _ _ h k hk2, lookupAssoc_insertAssoc_ne _ _ _ _ hk1]
        | none =>
          rw [hd] at h
          exact ih _ _ _ h k hk2

/-- When the parameter whose index equals the number of supplied tokens is
required, the validation loop stops there with its name. -/
theorem validateFrom_required_error (cmd : String) (args : List String) :
    ∀ (params : List Parameter) (index : Nat) (acc : List (String × Value)) (p : Parameter),
      index ≤ args.length →
      params.get? (args.length - index) = some p →
      p.required = true →
      validateFrom cmd args params index acc =
        Except.error (Error.missingRequiredArgument cmd p.name) := by
  intro params
  induction params with
  | nil =>
    intro index acc p _ hg _
    simp at hg
  | cons q rest ih =>
    intro index acc p hle hg hr
    simp only [validateFrom]
    by_cases hidx : index < args.length
    · have hpos : args.length - index = (args.length - (index + 1)) + 1 := by omega
      rw [hpos, List.get?_cons_succ] at hg
      rw [dif_pos hidx]
      exact ih (index + 1) _ p (by omega) hg hr
    · have h0 : args.length - index = 0 := by omega
      rw [h0, List.get?_cons_zero] at hg
      injection hg with hqp
      subst hqp
      rw [dif_neg hidx, if_pos hr]

/-- Every binding produced by the validation loop comes from the accumulator
or carries the name of a processed parameter. -/
theorem validateFrom_keys (cmd : String) (args : List String) :
    ∀ (params : List Parameter) (index : Nat) (acc m : List (String × Value)),
      validateFrom cmd args params index acc = Except.ok m →
      ∀ k v, (k, v) ∈ m → (k, v) ∈ acc ∨ k ∈ params.map Parameter.name := by
  intro params
  induction params with
  | nil =>
    intro index acc m h k v hm
    simp [validateFrom] at h
    exact Or.inl (h ▸ hm)
  | cons p rest ih =>
    intro index acc m h k v hm
    simp only [validateFrom] at h
    by_cases hidx : index < args.length
    · rw [dif_pos hidx] at h
      rcases ih _ _ _ h k v hm with h2 | h2
      · rcases mem_insertAssoc _ _ _ _ _ h2 with h3 | h3
        · exact Or.inl h3
        · exact Or.inr (by simp [h3])
      · exact Or.inr (by simp [h2])
    · rw [dif_neg hidx] at h
      by_cases hr : p.required = true
      · rw [if_pos hr] at h
        exact absurd h (by simp)
      · rw [if_neg hr] at h
        cases hd : p.default with
        | some d =>
          rw [hd] at h
          rcases ih _ _ _ h k v hm with h2 | h2
          · rcases mem_insertAssoc _ _ _ _ _ h2 with h3 | h3
            · exact Or.inl h3
            · exact Or.inr (by simp [h3])
          · exact Or.inr (by simp [h2])
        | none =>
          rw [hd] at h
          rcases ih _ _ _ h k v hm with h2 | h2
          · exact Or.inl h2
          · exact Or.inr (by simp [h2])

/-- Content of the mapping produced by a successful run of the validation
loop: the parameter at offset j is bound to the token at the same enumerate
index when one exists, to its declared default otherwise, and is absent when
optional without default, provided parameter names are distinct and none of
them is already bound in the accumulator. -/
theorem validateFrom_ok_bindings (cmd : String) (args : List String) :
    ∀ (params : List Parameter) (index : Nat) (acc m : List (String × Value)),
      validateFrom cmd args params index acc = Except.ok m →
      (params.map Parameter.name).Nodup →
      (∀ k, k ∈ params.map Parameter.name → lookupAssoc acc k = none) →
      ∀ j p, params.get? j = some p →
        (∀ a, args.get? (index + j) = some a → lookupAssoc m p.name = some (Value.new a)) ∧
        (args.get? (index + j) = none → lookupAssoc m p.name = Option.map Value.new p.default) := by
  intro params
  induction params with
  | nil =>
    intro index acc m _ _ _ j p hg
    simp at hg
  | cons q rest ih =>
    intro index acc m h hnd hdisj j p hg
    simp only [List.map_cons, List.nodup_cons] at hnd
    simp only [validateFrom] at h
    cases j with
    | zero =>
      rw [List.get?_cons_zero] at hg
      have hqp : q = p := by injection hg
      rw [← hqp, Nat.add_zero]
      by_cases hidx : index < args.length
      · rw [dif_pos hidx] at h
        have hlook : lookupAssoc m q.name =
            some (Value.new (args.get ⟨index, hidx⟩)) := by
          rw [validateFrom_frame cmd args rest (index + 1) _ m h q.name hnd.1,
            lookupAssoc_insertAssoc_self]
        constructor
        · intro a ha
          rw [List.get?_eq_get hidx] at ha
          injection ha with ha2
          rw [hlook, ha2]
        · intro ha
          rw [List.get?_eq_get hidx] at ha
          exact absurd ha (by simp)
      · have hnone : args.get? index = none := List.get?_eq_none.mpr (by omega)
        rw [dif_neg hidx] at h
        by_cases hr : q.required = true
        · rw [if_pos hr] at h
          exact absurd h (by simp)
        · rw [if_neg hr] at h
          cases hd : q.default with
          | some d =>
            rw [hd] at h
            constructor
            · intro a ha
              rw [hnone] at ha
              exact absurd ha (by simp)
            · intro _
              rw [validateFrom_frame cmd args rest (index + 1) _ m h q.name hnd.1,
                lookupAssoc_insertAssoc_self]
              rfl
          | none =>
            rw [hd] at h
            constructor
            · intro a ha
              rw [hnone] at ha
              exact absurd ha (by simp)
            · intro _
              rw [validateFrom_frame cmd args rest (index + 1) _ m h q.name hnd.1,
                hdisj q.name (by simp)]
              rfl
    | succ j2 =>
      rw [List.get?_cons_succ] at hg
      have harith : index + (j2 + 1) = (index + 1) + j2 := by omega
      rw [harith]
      have hdisj2 : ∀ acc2 k2, acc2 = acc ∨ (∃ v2, acc2 = insertAssoc acc q.name v2) →
          k2 ∈ rest.map Parameter.name → lookupAssoc acc2 k2 = none := by
        intro acc2 k2 hacc hk2
        have hne : k2 ≠ q.name := by
          intro e
          exact hnd.1 (e ▸ hk2)
        rcases hacc with hacc | ⟨v2, hacc⟩
        · rw [hacc]
          exact hdisj k2 (by simp [hk2])
        · rw [hacc, lookupAssoc_insertAssoc_ne _ _ _ _ hne]
          exact hdisj k2 (by simp [hk2])
      by_cases hidx : index < args.length
      · rw [dif_pos hidx] at h
        exact ih (index + 1) _ m h hnd.2 (fun k hk =>
          hdisj2 _ k (Or.inr ⟨_, rfl⟩) hk) j2 p hg
      · rw [dif_neg hidx] at h
        by_cases hr : q.required = true
        · rw [if_pos hr] at h
          exact absurd h (by simp)
        · rw [if_neg hr] at h
          cases hd : q.default with
          | some d =>
            rw [hd] at h
            exact ih (index + 1) _ m h hnd.2 (fun k hk =>
              hdisj2 _ k (Or.inr ⟨_, rfl⟩) hk) j2 p hg
          | none =>
            rw [hd] at h
            exact ih (index + 1) _ m h hnd.2 (fun k hk =>
              hdisj2 _ k (Or.inl rfl) hk) j2 p hg

/-- Trimming a line of whitespace characters leaves nothing. -/
theorem trimChars_all_ws (l : List Char) (h : ∀ c ∈ l, c.isWhitespace = true) :
    trimChars l = [] := by
  unfold trimChars
  rw [List.dropWhile_eq_nil_iff.mpr h]
  simp

/-- The token scanner emits nothing on a line of whitespace characters: the
regex matches only at non-whitespace positions. -/
theorem scanTokens_all_ws (fuel : Nat) :
    ∀ l : List Char, (∀ c ∈ l, c.isWhitespace = true) → scanTokens fuel l = [] := by
  induction fuel with
  | zero =>
    intro l _
    cases l <;> simp [scanTokens]
  | succ fuel2 ih =>
    intro l h
    cases l with
    | nil => simp [scanTokens]
    | cons c rest =>
      have hc : c.isWhitespace = true := h c (by simp)
      simp only [scanTokens, hc, if_true]
      exact ih rest (fun c2 hc2 => h c2 (by simp [hc2]))

/-- Every token the tokenizer emits has passed through the quote-removing
String replace, so it contains no double-quote character. -/
theorem tokenizeChars_no_quote (l : List Char) (t : List Char)
    (ht : t ∈ tokenizeChars l) : qc ∉ t := by
  rcases List.mem_map.mp ht with ⟨raw, _, hraw⟩
  intro hmem
  rw [← hraw] at hmem
  rcases List.mem_filter.mp hmem with ⟨_, hne⟩
  simp at hne

/-- Two sorted permutations of each other with pairwise distinct command names
are equal: sorting canonicalizes the help snapshot. -/
theorem sorted_key_nodup_perm_eq :
    ∀ (l₁ l₂ : List HelpEntry), l₁.Perm l₂ → List.Sorted entryLe l₁ →
      List.Sorted entryLe l₂ → (l₁.map HelpEntry.command).Nodup → l₁ = l₂ := by
  intro l₁
  induction l₁ with
  | nil =>
    intro l₂ hp _ _ _
    exact (List.Perm.eq_nil hp.symm).symm
  | cons a t₁ ih =>
    intro l₂ hp hs₁ hs₂ hnd
    cases l₂ with
    | nil =>
      have := List.Perm.eq_nil hp
      simp at this
    | cons b t₂ =>
      have heq : a = b := by
        by_cases heq0 : a = b
        · exact heq0
        · exfalso
          have hmem_b : b ∈ a :: t₁ := hp.symm.subset (by simp)
          rcases List.mem_cons.mp hmem_b with h | h
          · exact heq0 h.symm
          · have hmem_a : a ∈ b :: t₂ := hp.subset (by simp)
            rcases List.mem_cons.mp hmem_a with h2 | h2
            · exact heq0 h2
            · have h3 : entryLe a b := (List.sorted_cons.mp hs₁).1 b h
              have h4 : entryLe b a := (List.sorted_cons.mp hs₂).1 a h2
              have h5 : a.command = b.command := le_antisymm h3 h4
              simp only [List.map_cons, List.nodup_cons] at hnd
              exact hnd.1 (by
                rw [h5]
                exact List.mem_map.mpr ⟨b, h, rfl⟩)
      subst heq
      have ht : t₁.Perm t₂ := hp.cons_inv
      simp only [List.map_cons, List.nodup_cons] at hnd
      rw [ih t₂ ht (List.sorted_cons.mp hs₁).2 (List.sorted_cons.mp hs₂).2 hnd.2]

/-- Well-formedness of the modelled registry: the HashMap holds at most one
command per key, and add_command keys every command by its own name. -/
def WFCommands {Ctx E : Type} (commands : List (String × Command Ctx E)) : Prop :=
  (commands.map Prod.fst).Nodup ∧ ∀ kc ∈ commands, Prod.fst kc = (Prod.snd kc).name

/-
Concrete fixtures used by the claim theorems and witnesses.  They mirror the
command used across the crate test suite: a command foo with two required
parameters bar and baz, plus variants with defaulted and optional parameters.
-/

def fooStr : String := "foo"

def barStr : String := "bar"

def bazStr : String := "baz"

def onlyoneStr : String := "onlyone"

def aStr : String := "a"

def bStr : String := "b"

def cStr : String := "c"

def xStr : String := "x"

def quxStr : String := "qux"

def twentyStr : String := "20"

def emptyStr : String := ""

def shadowedStr : String := "shadowed"

def bazTest123Str : String := "baz test 123"

def lineFooQuoted : String := "foo \"baz test 123\" bar"

def lineFooOpenQuote : String := "foo \"bar"

def lineTwoQuotes : String := "\"\""

def lineBarBaz : String := "bar baz"

def wsLine : String := "  \t  "

def barParam : Parameter := { name := barStr, required := true, default := none }

def bazParam : Parameter := { name := bazStr, required := true, default := none }

def fooParams : List Parameter := [barParam, bazParam]

def bazDefParam : Parameter := { name := bazStr, required := false, default := some twentyStr }

def quxOptParam : Parameter := { name := quxStr, required := false, default := none }

def mixParams : List Parameter := [barParam, bazDefParam, quxOptParam]

def fooCommand : Command Unit Error :=
  { name := fooStr
    parameters := fooParams
    callback := fun _ ctx => Except.ok (some fooStr, ctx)
    help_summary := none }

def fooCommand2 : Command Unit Error :=
  { name := fooStr
    parameters := []
    callback := fun _ ctx => Except.ok (none, ctx)
    help_summary := none }

def barCommand : Command Unit Error :=
  { name := barStr
    parameters := []
    callback := fun _ ctx => Except.ok (none, ctx)
    help_summary := none }

def helpShadowCommand : Command Unit Error :=
  { name := helpLiteral
    parameters := []
    callback := fun _ ctx => Except.ok (some shadowedStr, ctx)
    help_summary := none }

def baseRepl : Repl Unit Error :=
  { name := emptyStr
    banner := none
    version := emptyStr
    description := emptyStr
    commands := []
    context := ()
    help_context := none
    helpGeneral := fun _ => Except.ok []
    helpCommand := fun _ => Except.ok []
    errorHandler := default_error_handler (fun _ => emptyStr)
    liftError := id }

def replC1 : Repl Unit Error := add_command baseRepl fooCommand

def replShadow : Repl Unit Error := add_command baseRepl helpShadowCommand

def replOrder₁ : Repl Unit Error :=
  { baseRepl with commands := [(fooStr, fooCommand), (barStr, barCommand)] }

def replOrder₂ : Repl Unit Error :=
  { baseRepl with commands := [(barStr, barCommand), (fooStr, fooCommand)] }

def mWitness : List (String × Value) := [(barStr, Value.new xStr), (bazStr, Value.new twentyStr)]

/-- Claim C1: the spec says runtime dispatch errors are routed through the
installed pluggable error handler and the loop continues; in the code, run
calls process_line and unwraps its Result (repl.rs line 290), so a dispatch
error such as UnknownCommand panics and aborts the process, and the stored
error handler (whose default would print and continue) is never invoked.  The
theorem evaluates the code at the failing input: the line bar baz against a
registry holding only foo produces an UnknownCommand error, and the loop step
panics instead of continuing to the next line. -/
theorem run_unwraps_dispatch_error :
    process_line replC1 lineBarBaz = HandleResult.err (Error.unknownCommand barStr) ∧
    runStep replC1 (Signal.success lineBarBaz) = StepResult.panicked := by
  constructor
  · rfl
  · rfl

/-- Claim C2: when the token list is shorter than the parameter list and the
parameter at the first uncovered index (the token-list length) is required,
validation fails with MissingRequiredArgument carrying the command name and
that parameter's name, stopping at that first missing required parameter. -/
theorem validate_missing_required_first (cmd : String) (params : List Parameter)
    (args : List String) (p : Parameter)
    (hg : params.get? args.length = some p) (hr : p.required = true) :
    validate_arguments cmd params args =
      Except.error (Error.missingRequiredArgument cmd p.name) := by
  have hlt : args.length < params.length := by
    by_contra hcon
    rw [List.get?_eq_none.mpr (by omega)] at hg
    exact absurd hg (by simp)
  unfold validate_arguments
  rw [if_neg (by omega)]
  have := validateFrom_required_error cmd args params 0 [] p (by omega) (by simpa using hg) hr
  exact this

/-- Witness for C2 at the spec example: command foo with required parameters
bar and baz given the single argument onlyone fails naming baz. -/
theorem validate_missing_required_first_witness :
    validate_arguments fooStr fooParams [onlyoneStr] =
      Except.error (Error.missingRequiredArgument fooStr bazStr) :=
  validate_missing_required_first fooStr fooParams [onlyoneStr] bazParam (by rfl) (by rfl)

/-- Claim C3: validation fails with TooManyArguments exactly when more tokens
are supplied than parameters are declared, and the reported maximum equals the
number of declared parameters, with the command name attached. -/
theorem validate_too_many_iff (cmd : String) (params : List Parameter) (args : List String) :
    (args.length > params.length →
      validate_arguments cmd params args =
        Except.error (Error.tooManyArguments cmd params.length)) ∧
    (∀ name n,
      validate_arguments cmd params args = Except.error (Error.tooManyArguments name n) →
      args.length > params.length ∧ name = cmd ∧ n = params.length) := by
  constructor
  · intro h
    unfold validate_arguments
    rw [if_pos h]
  · intro name n h
    unfold validate_arguments at h
    by_cases hc : args.length > params.length
    · rw [if_pos hc] at h
      have h2 : Error.tooManyArguments cmd params.length = Error.tooManyArguments name n := by
        injection h
      injection h2 with h3 h4
      exact ⟨hc, h3.symm, h4.symm⟩
    · rw [if_neg hc] at h
      exact absurd h (validateFrom_ne_tooMany cmd args params 0 [] name n)

/-- Witness for C3 at the spec example: the two-parameter command foo given
three arguments fails with TooManyArguments foo 2. -/
theorem validate_too_many_iff_witness :
    validate_arguments fooStr fooParams [aStr, bStr, cStr] =
      Except.error (Error.tooManyArguments fooStr 2) :=
  (validate_too_many_iff fooStr fooParams [aStr, bStr, cStr]).1 (by decide)

/-- Claim C4: under the construction invariant that parameter names are
distinct, a successful validation binds the parameter at index j to the token
at index j when present, otherwise to its declared default when one is set,
and leaves an optional parameter without default entirely absent; and the
mapping holds no key beyond the declared parameter names. -/
theorem validate_ok_bindings (cmd : String) (params : List Parameter) (args : List String)
    (m : List (String × Value)) (hnd : (params.map Parameter.name).Nodup)
    (hok : validate_arguments cmd params args = Except.ok m) :
    (∀ j p, params.get? j = some p →
      (∀ a, args.get? j = some a → lookupAssoc m p.name = some (Value.new a)) ∧
      (args.get? j = none → lookupAssoc m p.name = Option.map Value.new p.default)) ∧
    (∀ k v, (k, v) ∈ m → k ∈ params.map Parameter.name) := by
  unfold validate_arguments at hok
  by_cases hlen : args.length > params.length
  · rw [if_pos hlen] at hok
    exact absurd hok (by simp)
  · rw [if_neg hlen] at hok
    constructor
    · intro j p hg
      have := validateFrom_ok_bindings cmd args params 0 [] m hok hnd (fun k _ => rfl) j p hg
      simpa using this
    · intro k v hm
      rcases validateFrom_keys cmd args params 0 [] m hok k v hm with h | h
      · simp at h
      · exact h

/-- Witness for C4: command foo with required bar, defaulted baz and optional
qux, given one token, binds baz to its default value 20. -/
theorem validate_ok_bindings_witness :
    lookupAssoc mWitness bazStr = some (Value.new twentyStr) :=
  ((validate_ok_bindings fooStr mixParams [xStr] mWitness (by decide) (by rfl)).1
    1 bazDefParam (by decide)).2 (by decide)

/-- Claim C5: tokenizing the line foo "baz test 123" bar yields exactly the
three tokens foo, baz test 123 and bar: the quoted span is one token with its
enclosing quotes stripped and internal spaces preserved, and the unquoted
maximal non-whitespace runs are the other tokens. -/
theorem tokenize_quoted_span :
    tokenizeLine lineFooQuoted = [fooStr, bazTest123Str, barStr] := by decide

/-- Claim C6: handle_command resolves registry-first (a registered command,
even one literally named help, is executed through validation and its
callback), routes an unregistered help to the built-in help viewer with the
remaining tokens, and fails with UnknownCommand on any other unregistered
name. -/
theorem handle_command_resolution {Ctx E : Type} (repl : Repl Ctx E)
    (command : String) (args : List String) :
    (∀ cmd, lookupAssoc repl.commands command = some cmd →
      handle_command repl command args =
        match validate_arguments command cmd.parameters args with
        | Except.error e => HandleResult.err (repl.liftError e)
        | Except.ok validated =>
          match cmd.callback validated repl.context with
          | Except.ok (some value, ctx) => HandleResult.ok ctx [value]
          | Except.ok (none, ctx) => HandleResult.ok ctx []
          | Except.error error => HandleResult.err error) ∧
    (lookupAssoc repl.commands command = none → command = helpLiteral →
      handle_command repl command args =
        match show_help repl args with
        | ShowHelpRes.ok out => HandleResult.ok repl.context out
        | ShowHelpRes.err e => HandleResult.err (repl.liftError e)
        | ShowHelpRes.panicked => HandleResult.panicked) ∧
    (lookupAssoc repl.commands command = none → command ≠ helpLiteral →
      handle_command repl command args =
        HandleResult.err (repl.liftError (Error.unknownCommand command))) := by
  refine ⟨?_, ?_, ?_⟩
  · intro cmd hl
    unfold handle_command
    rw [hl]
  · intro hl he
    unfold handle_command
    rw [hl, if_pos he]
  · intro hl he
    unfold handle_command
    rw [hl, if_neg he]

/-- Witness for C6: a registered command literally named help shadows the
built-in viewer, its callback output being printed instead of any help text. -/
theorem handle_command_resolution_witness :
    handle_command replShadow helpLiteral [] = HandleResult.ok () [shadowedStr] := by
  have h := (handle_command_resolution replShadow helpLiteral []).1 helpShadowCommand (by rfl)
  rw [h]
  rfl

/-- Claim C7: a line of only whitespace characters (the empty line included)
tokenizes to zero tokens, and process_line is a silent no-op: it succeeds,
prints nothing, leaves the context unchanged and invokes no handler, whatever
the registry and handlers are. -/
theorem whitespace_line_noop {Ctx E : Type} (repl : Repl Ctx E) (line : String)
    (hws : ∀ c ∈ line.data, c.isWhitespace = true) :
    tokenizeLine line = [] ∧ process_line repl line = HandleResult.ok repl.context [] := by
  constructor
  · unfold tokenizeLine tokenizeChars rawTokens
    rw [scanTokens_all_ws _ _ hws]
    rfl
  · have htrim : trimChars line.data = [] := trimChars_all_ws _ hws
    simp [process_line, htrim]

/-- Witness for C7 on a concrete line of spaces and a tab. -/
theorem whitespace_line_noop_witness :
    tokenizeLine wsLine = [] ∧ process_line replC1 wsLine = HandleResult.ok () [] :=
  whitespace_line_noop replC1 wsLine (by decide)

/-- Claim C8: the help snapshot is sorted lexically by command name and, for a
well-formed registry, is a permutation-invariant function of the registered
command set: registries holding the same commands in any order produce the
same help entry list. -/
theorem help_entries_sorted_perm_invariant {Ctx E : Type} (repl₁ repl₂ : Repl Ctx E)
    (hwf : WFCommands repl₁.commands) (hperm : repl₁.commands.Perm repl₂.commands) :
    List.Sorted entryLe (construct_help_context repl₁).help_entries ∧
    (construct_help_context repl₁).help_entries = (construct_help_context repl₂).help_entries := by
  refine ⟨List.sorted_insertionSort entryLe _, ?_⟩
  apply sorted_key_nodup_perm_eq
  · exact (List.perm_insertionSort entryLe _).trans
      ((hperm.map _).trans (List.perm_insertionSort entryLe _).symm)
  · exact List.sorted_insertionSort entryLe _
  · exact List.sorted_insertionSort entryLe _
  · have h1 : ((repl₁.commands.map
        (fun kc => HelpEntry.mk kc.2.name kc.2.parameters kc.2.help_summary)).map
          HelpEntry.command) = repl₁.commands.map Prod.fst := by
      rw [List.map_map]
      exact List.map_congr_left (fun kc hkc => (hwf.2 kc hkc).symm)
    have h2 := (List.perm_insertionSort entryLe
      (repl₁.commands.map
        (fun kc => HelpEntry.mk kc.2.name kc.2.parameters kc.2.help_summary))).map
          HelpEntry.command
    exact h2.nodup_iff.mpr (h1 ▸ hwf.1)

/-- Witness for C8: registering foo then bar, or bar then foo, yields the same
sorted help entries. -/
theorem help_entries_sorted_perm_invariant_witness :
    List.Sorted entryLe (construct_help_context replOrder₁).help_entries ∧
    (construct_help_context replOrder₁).help_entries =
      (construct_help_context replOrder₂).help_entries :=
  help_entries_sorted_perm_invariant replOrder₁ replOrder₂ ⟨by decide, by decide⟩
    (List.Perm.swap _ _ _)

/-- Claim C9: registering a command under an already registered name replaces
the earlier definition: lookup under that name (either command's) yields only
the latest command, and insertion preserves the at-most-one-command-per-name
invariant of the registry. -/
theorem add_command_replaces {Ctx E : Type} (repl : Repl Ctx E) (c₁ c₂ : Command Ctx E)
    (hname : c₁.name = c₂.name) :
    lookupAssoc (add_command (add_command repl c₁) c₂).commands c₂.name = some c₂ ∧
    lookupAssoc (add_command (add_command repl c₁) c₂).commands c₁.name = some c₂ ∧
    ((repl.commands.map Prod.fst).Nodup →
      ((add_command (add_command repl c₁) c₂).commands.map Prod.fst).Nodup) := by
  refine ⟨?_, ?_, ?_⟩
  · exact lookupAssoc_insertAssoc_self _ _ _
  · rw [hname]
    exact lookupAssoc_insertAssoc_self _ _ _
  · intro h
    exact nodup_keys_insertAssoc _ _ _ (nodup_keys_insertAssoc _ _ _ h)

/-- Witness for C9: re-registering foo makes lookup yield the second command. -/
theorem add_command_replaces_witness :
    lookupAssoc (add_command (add_command baseRepl fooCommand) fooCommand2).commands fooStr =
      some fooCommand2 :=
  (add_command_replaces baseRepl fooCommand fooCommand2 (by rfl)).1

/-- Claim C10: the tokenizer removes every double-quote character from every
emitted token - not only a well-formed enclosing pair - so no token ever
contains a quote; a token with an unterminated quote is emitted with its
quotes deleted, and an isolated pair of quotes becomes the empty token. -/
theorem tokenize_strips_all_quotes :
    (∀ line t : String, t ∈ tokenizeLine line → qc ∉ t.data) ∧
    tokenizeLine lineFooOpenQuote = [fooStr, barStr] ∧
    tokenizeLine lineTwoQuotes = [emptyStr] := by
  refine ⟨?_, by decide, by decide⟩
  intro line t ht hmem
  rcases List.mem_map.mp ht with ⟨tc, htc, hmk⟩
  rw [← hmk] at hmem
  exact tokenizeChars_no_quote line.data tc htc hmem

/-- Witness for C10 on a token produced from a line with a dangling quote. -/
theorem tokenize_strips_all_quotes_witness : qc ∉ fooStr.data :=
  tokenize_strips_all_quotes.1 lineFooOpenQuote fooStr (by decide)

end ReplRs
